import Mathlib

/-!
Verification of the goki 2D layout engine against its specification.

The Go source is shallowly embedded: `float64`/`float32` values are modelled
as rationals (`ℚ`), all arithmetic in the relevant code paths is exact on the
inputs considered.  Struct-mutating Go methods become pure functions from the
old record to the new record.  Where a helper lives outside the provided
sources (the `Vec2D` arithmetic helpers of gi/geom2d.go, and library string
parsing), it is modelled from the specification's wording and marked as such.
-/

namespace Goki

/-- The two dimensions, mirroring `Dims2D` with constants `X` and `Y`. -/
inductive Dims2D where
  | X
  | Y
deriving DecidableEq, Repr

/-- 2D vector of rationals, mirroring `Vec2D` (float64 fields X, Y). -/
structure Vec2D where
  x : ℚ
  y : ℚ
deriving DecidableEq, Repr

namespace Vec2D

/-- `Vec2DZero`. -/
def zero : Vec2D := ⟨0, 0⟩

/-- `Vec2D.Dim(d)`: select the component for a dimension. -/
def dim (v : Vec2D) : Dims2D → ℚ
  | Dims2D.X => v.x
  | Dims2D.Y => v.y

/-- `Vec2D.SetDim(d, val)`: functional update of one component. -/
def setDim (v : Vec2D) : Dims2D → ℚ → Vec2D
  | Dims2D.X, q => { v with x := q }
  | Dims2D.Y, q => { v with y := q }

/-- `Vec2D.Add`: componentwise addition. -/
def add (a b : Vec2D) : Vec2D := ⟨a.x + b.x, a.y + b.y⟩

/-- `Vec2D.Max`: componentwise maximum. -/
def vmax (a b : Vec2D) : Vec2D := ⟨max a.x b.x, max a.y b.y⟩

/-- Modelled from the spec: `Vec2D.SetMax` (gi/geom2d.go, not in src);
§4.2 "Need = max(Need, AllocSize)" — raise each component to at least the
corresponding component of the argument. -/
def setMax (a b : Vec2D) : Vec2D := vmax a b

/-- Modelled from the spec: scalar form of `MinPos` used by `Vec2D.SetMinPos`
(gi/geom2d.go, not in src); §4.2 "Need = min(Need, Max) if Max>0" — clamp
from above only when the bound is strictly positive. -/
def minPos (a b : ℚ) : ℚ := if 0 < b then min a b else a

/-- Modelled from the spec: `Vec2D.SetMinPos` (gi/geom2d.go, not in src);
componentwise `minPos`. -/
def setMinPos (a b : Vec2D) : Vec2D := ⟨minPos a.x b.x, minPos a.y b.y⟩

/-- Modelled from the spec: `Vec2D.SetAddVal` (gi/geom2d.go, not in src);
add a scalar to both components (used for the `2*BoxSpace` additions). -/
def addVal (a : Vec2D) (s : ℚ) : Vec2D := ⟨a.x + s, a.y + s⟩

/-- Modelled from the spec: `Vec2D.SubVal` (gi/geom2d.go, not in src);
subtract a scalar from both components (used in `ManageOverflow`). -/
def subVal (a : Vec2D) (s : ℚ) : Vec2D := ⟨a.x - s, a.y - s⟩

/-- `Vec2D.SetMaxDim(d, val)`: raise one component to at least `val`. -/
def setMaxDim (v : Vec2D) (d : Dims2D) (q : ℚ) : Vec2D :=
  v.setDim d (max (v.dim d) q)

/-- `Vec2D.SetAddDim(d, val)`: add `val` to one component. -/
def setAddDim (v : Vec2D) (d : Dims2D) (q : ℚ) : Vec2D :=
  v.setDim d (v.dim d + q)

/-- `Vec2D.IsZero`. -/
def isZero (v : Vec2D) : Bool := v.x = 0 ∧ v.y = 0

end Vec2D

/-- `SizePrefs`: the Need / Pref / Max triple of size constraints. -/
structure SizePrefs where
  need : Vec2D
  pref : Vec2D
  max : Vec2D
deriving DecidableEq, Repr

namespace SizePrefs

/-- `SizePrefs.HasMaxStretch(d)`: `Max < 0` is the infinite-stretch sentinel. -/
def hasMaxStretch (sp : SizePrefs) (d : Dims2D) : Prop := sp.max.dim d < 0

instance (sp : SizePrefs) (d : Dims2D) : Decidable (sp.hasMaxStretch d) := by
  unfold hasMaxStretch; infer_instance

/-- `SizePrefs.CanStretchNeed(d)`: `Pref > Need` leaves room to grow. -/
def canStretchNeed (sp : SizePrefs) (d : Dims2D) : Prop := sp.need.dim d < sp.pref.dim d

instance (sp : SizePrefs) (d : Dims2D) : Decidable (sp.canStretchNeed d) := by
  unfold canStretchNeed; infer_instance

end SizePrefs

/-- `LayoutData`: per-node resolved layout record (margins and grid fields
are omitted here; the claims under study do not read them through this
record). -/
structure LayoutData where
  size : SizePrefs
  allocPos : Vec2D
  allocSize : Vec2D
  allocPosOrig : Vec2D
deriving DecidableEq, Repr

namespace LayoutData

/-- `LayoutData.UpdateSizes()` (src/unnamed/part_000 lines 1197-1202):
Need = max(Need, AllocSize); Pref = max(Pref, Need);
Need = minPos(Need, Max); Pref = minPos(Pref, Max). -/
def updateSizes (ld : LayoutData) : LayoutData :=
  let need := ld.size.need.setMax ld.allocSize
  let pref := ld.size.pref.setMax need
  let need2 := need.setMinPos ld.size.max
  let pref2 := pref.setMinPos ld.size.max
  { ld with size := { ld.size with need := need2, pref := pref2 } }

/-- `LayoutData.Reset()`: zero the allocated geometry. -/
def reset (ld : LayoutData) : LayoutData :=
  { ld with allocPos := Vec2D.zero, allocPosOrig := Vec2D.zero, allocSize := Vec2D.zero }

end LayoutData

/-- `Align` (src/unnamed/part_000 lines 980-1001). -/
inductive Align where
  | left
  | top
  | center
  | middle
  | right
  | bottom
  | baseline
  | justify
  | spaceAround
  | flexStart
  | flexEnd
  | textTop
  | textBottom
  | sub
  | super
deriving DecidableEq, Repr

/-- `IsAlignMiddle`. -/
def isAlignMiddle : Align → Bool
  | Align.center => true
  | Align.middle => true
  | _ => false

/-- `IsAlignEnd`. -/
def isAlignEnd : Align → Bool
  | Align.right => true
  | Align.bottom => true
  | Align.flexEnd => true
  | Align.textBottom => true
  | _ => false

/-- `Overflow` (src/unnamed/part_000 lines 1025-1035). -/
inductive Overflow where
  | auto
  | scroll
  | visible
  | hidden
deriving DecidableEq, Repr

/-- `Layouts` (src/unnamed/part_000 lines 1210-1224). -/
inductive Layouts where
  | row
  | col
  | grid
  | rowFlow
  | colFlow
  | stacked
deriving DecidableEq, Repr

/-- A child of a layout: its `LayData` plus the per-axis alignment read from
its own style (`gi.Style.Layout.AlignDim`). -/
structure Child where
  layData : LayoutData
  alignH : Align
  alignV : Align
deriving DecidableEq, Repr

/-- `LayoutStyle.AlignDim` applied to a child's style. -/
def Child.alignDim (k : Child) : Dims2D → Align
  | Dims2D.X => k.alignH
  | Dims2D.Y => k.alignV

/-- A `Layout` node: its own `LayData`, the children's records, and the
fields of its style that the arrange/overflow passes read.  The scrollbar
objects are modelled by their `Min`/`Max`/`Value`/`ThumbVal` fields. -/
structure ScrollBar where
  min : ℚ
  max : ℚ
  value : ℚ
  thumbVal : ℚ
deriving DecidableEq, Repr

structure Layout where
  lay : Layouts
  layData : LayoutData
  kids : List Child
  alignH : Align
  alignV : Align
  spc : ℚ
  overflow : Overflow
  scrollBarWidth : ℚ
  childSize : Vec2D
  extraSize : Vec2D
  hasHScroll : Bool
  hasVScroll : Bool
  hScroll : Option ScrollBar
  vScroll : Option ScrollBar
deriving DecidableEq, Repr

namespace Layout

/-- Parent-style alignment for a dimension (`ly.Style.Layout.AlignDim`). -/
def alignDim (ly : Layout) : Dims2D → Align
  | Dims2D.X => ly.alignH
  | Dims2D.Y => ly.alignV

/-- The per-child arrangement loop of `LayoutAll` (src lines 1607-1636):
walk children in order carrying the running cursor `pos` and index `i`,
assigning the main-axis `AllocSize` and `AllocPos` of each child. -/
def arrangeWalk (d : Dims2D) (usePref stretchMax stretchNeed addSpace : Bool)
    (extra stretchTot extraSpace : ℚ) : ℕ → ℚ → List Child → List Child
  | _, _, [] => []
  | i, pos, k :: ks =>
    let size0 : ℚ :=
      if usePref then k.layData.size.pref.dim d else k.layData.size.need.dim d
    let size : ℚ :=
      if stretchMax then
        (if k.layData.size.hasMaxStretch d then
          size0 + extra * (k.layData.size.pref.dim d / stretchTot) else size0)
      else if stretchNeed then
        (if k.layData.size.hasMaxStretch d ∨ k.layData.size.canStretchNeed d then
          size0 + extra * (k.layData.size.pref.dim d / stretchTot) else size0)
      else size0
    let pos1 : ℚ :=
      if ¬stretchMax ∧ ¬stretchNeed ∧ addSpace ∧ 0 < i then pos + extraSpace else pos
    let k1 : Child :=
      { k with layData := { k.layData with
          allocSize := k.layData.allocSize.setDim d size,
          allocPos := k.layData.allocPos.setDim d pos1 } }
    k1 :: arrangeWalk d usePref stretchMax stretchNeed addSpace
      extra stretchTot extraSpace (i + 1) (pos1 + size) ks

/-- `Layout.LayoutAll(dim)` (src lines 1531-1637): distribute the main-axis
space among all children. -/
def layoutAll (ly : Layout) (d : Dims2D) : Layout :=
  if ly.kids.length = 0 then ly else
  let al := ly.alignDim d
  let spc := ly.spc
  let avail := ly.layData.allocSize.dim d - 2 * spc
  let pref := ly.layData.size.pref.dim d
  let need := ly.layData.size.need.dim d
  let fits : Bool := ¬(avail - pref < -(1/10 : ℚ))
  let usePref := fits
  let targ := if fits then pref else need
  let extra := max (avail - targ) 0
  let nstretchMax := ly.kids.countP (fun k => decide (k.layData.size.hasMaxStretch d))
  let stretchTotMax := ly.kids.foldl
    (fun s k => if k.layData.size.hasMaxStretch d then s + k.layData.size.pref.dim d else s) 0
  let nstretchNeed := ly.kids.countP
    (fun k => decide (k.layData.size.hasMaxStretch d ∨ k.layData.size.canStretchNeed d))
  let stretchTotNeed := ly.kids.foldl
    (fun s k => if k.layData.size.hasMaxStretch d ∨ k.layData.size.canStretchNeed d then
      s + k.layData.size.pref.dim d else s) 0
  let stretchMax : Bool := usePref ∧ 0 < extra ∧ 0 < nstretchMax
  let stretchNeed : Bool := ¬(usePref ∧ 0 < extra) ∧ 0 < extra ∧ 0 < nstretchNeed
  let stretchTot := if stretchMax then stretchTotMax else stretchTotNeed
  let addSpace : Bool :=
    1 < ly.kids.length ∧ 0 < extra ∧ al = Align.justify ∧ ¬stretchNeed ∧ ¬stretchMax
  let extraSpace := if addSpace then extra / (ly.kids.length - 1 : ℚ) else 0
  let pos0 := if isAlignEnd al ∧ ¬stretchNeed ∧ ¬stretchMax then spc + extra else spc
  { ly with kids := (arrangeWalk d usePref stretchMax stretchNeed addSpace
      extra stretchTot extraSpace 0 pos0 ly.kids) }

/-- `Layout.LayoutSingleImpl` (src lines 1464-1508): single-element
cross-axis placement, returning (pos, size). -/
def layoutSingleImpl (spc avail need pref mx : ℚ) (al : Align) : ℚ × ℚ :=
  let fits : Bool := ¬(avail - pref < -(1/10 : ℚ))
  let usePref := fits
  let targ := if fits then pref else need
  let extra := max (avail - targ) 0
  let stretchMax : Bool := usePref ∧ 0 < extra ∧ mx < 0
  let stretchNeed : Bool := ¬(usePref ∧ 0 < extra) ∧ 0 < extra
  let size0 := if usePref then pref else need
  if stretchMax ∨ stretchNeed then (spc, size0 + extra)
  else if isAlignMiddle al then (spc + (1/2 : ℚ) * extra, size0)
  else if isAlignEnd al then (spc + extra, size0)
  else if al = Align.justify then (spc, size0 + extra)
  else (spc, size0)

/-- Per-child body of the `LayoutSingle` loop (src lines 1514-1526). -/
def singleKid (spc avail : ℚ) (d : Dims2D) (k : Child) : Child :=
  let ps := layoutSingleImpl spc avail (k.layData.size.need.dim d)
    (k.layData.size.pref.dim d) (k.layData.size.max.dim d) (k.alignDim d)
  { k with layData := { k.layData with
      allocSize := k.layData.allocSize.setDim d ps.2,
      allocPos := k.layData.allocPos.setDim d ps.1 } }

/-- `Layout.LayoutSingle(dim)` (src lines 1511-1527). -/
def layoutSingle (ly : Layout) (d : Dims2D) : Layout :=
  { ly with kids := (ly.kids.map
      (singleKid ly.spc (ly.layData.allocSize.dim d - 2 * ly.spc) d)) }

/-- Per-child `AllocPosOrig` capture of `FinalizeLayout` (src line 1648). -/
def finKid (k : Child) : Child :=
  { k with layData := { k.layData with allocPosOrig := k.layData.allocPos } }

/-- The `ChildSize` accumulation step of `FinalizeLayout` (src line 1649). -/
def boundMax (m : Vec2D) (k : Child) : Vec2D :=
  m.vmax (k.layData.allocPos.add k.layData.allocSize)

/-- `Layout.FinalizeLayout` (src lines 1641-1651): capture `AllocPosOrig`
and accumulate `ChildSize`. -/
def finalizeLayout (ly : Layout) : Layout :=
  let kids := ly.kids.map finKid
  { ly with kids := kids, childSize := kids.foldl boundMax Vec2D.zero }

/-- `Layout.SetHScroll` (src lines 1688-1717), scrollbar value fields only:
creates the scrollbar if absent (Value starts at 0) and sets its range. -/
def setHScroll (ly : Layout) : Layout :=
  let sb := ly.hScroll.getD { min := 0, max := 0, value := 0, thumbVal := 0 }
  { ly with hScroll := some { sb with
      min := 0,
      max := ly.childSize.x + ly.extraSize.x,
      thumbVal := ly.layData.allocSize.x - ly.spc } }

/-- `Layout.SetVScroll` (src lines 1733-1761), scrollbar value fields only. -/
def setVScroll (ly : Layout) : Layout :=
  let sb := ly.vScroll.getD { min := 0, max := 0, value := 0, thumbVal := 0 }
  { ly with vScroll := some { sb with
      min := 0,
      max := ly.childSize.y + ly.extraSize.y,
      thumbVal := ly.layData.allocSize.y - ly.spc } }

/-- `Layout.ManageOverflow` (src lines 1654-1686): decide per-axis scrolling
from the children's bounding size versus the available size. -/
def manageOverflow (ly : Layout) : Layout :=
  if ly.kids.length = 0 then ly else
  let spc := ly.spc
  let avail := ly.layData.allocSize.subVal spc
  let ly1 := { ly with extraSize := Vec2D.zero, hasHScroll := false, hasVScroll := false }
  if ly1.overflow = Overflow.hidden then ly1 else
  let sbw := ly1.scrollBarWidth
  let hasH : Bool := avail.x < ly1.childSize.x
  let hasV : Bool := avail.y < ly1.childSize.y
  let ly2 := { ly1 with
    hasHScroll := hasH,
    hasVScroll := hasV,
    extraSize := ⟨if hasV then sbw else 0, if hasH then sbw else 0⟩ }
  let ly3 := if hasH then ly2.setHScroll else ly2
  if hasV then ly3.setVScroll else ly3

/-- The arrange pass of `Layout.Layout2D` for a Column layout
(src lines 1901-1916, `LayoutCol` case, up to `ManageOverflow`). -/
def layout2DCol (ly : Layout) : Layout :=
  (((ly.layoutAll Dims2D.Y).layoutSingle Dims2D.X).finalizeLayout).manageOverflow

/-- `Layout.Move2DDelta` (src lines 1926-1936): subtract the scrollbars'
current values from a movement delta. -/
def move2DDelta (ly : Layout) (delta : Vec2D) : Vec2D :=
  let d1 := if ly.hasHScroll then
    { delta with x := delta.x - (ly.hScroll.map ScrollBar.value).getD 0 } else delta
  if ly.hasVScroll then
    { d1 with y := d1.y - (ly.vScroll.map ScrollBar.value).getD 0 } else d1

/-- Main-axis allocated sizes of the children. -/
def kidSizes (ly : Layout) (d : Dims2D) : List ℚ :=
  ly.kids.map (fun k => k.layData.allocSize.dim d)

/-- Main-axis allocated positions of the children. -/
def kidPoss (ly : Layout) (d : Dims2D) : List ℚ :=
  ly.kids.map (fun k => k.layData.allocPos.dim d)

end Layout

end Goki

open Goki

namespace Goki

@[simp]
theorem Vec2D.dim_setDim (v : Vec2D) (d : Dims2D) (q : ℚ) : (v.setDim d q).dim d = q := by
  cases d <;> rfl

/-- A leaf child with equal Need/Pref on X and a given Max sentinel on X
(heights zero); used by the concrete layout scenarios. -/
def plainChild (need pref mx : ℚ) : Child :=
  { layData :=
      { size := { need := ⟨need, 0⟩, pref := ⟨pref, 0⟩, max := ⟨mx, 0⟩ },
        allocPos := Vec2D.zero, allocSize := Vec2D.zero, allocPosOrig := Vec2D.zero },
    alignH := Align.left, alignV := Align.top }

/-- A Row layout of width `w` whose own gathered Need/Pref on X are
`sumNeed`/`sumPref`, with no box spacing, overflow Auto. -/
def mkRow (w sumNeed sumPref : ℚ) (al : Align) (kids : List Child) : Layout :=
  { lay := Layouts.row,
    layData :=
      { size := { need := ⟨sumNeed, 0⟩, pref := ⟨sumPref, 0⟩, max := Vec2D.zero },
        allocPos := Vec2D.zero, allocSize := ⟨w, 0⟩, allocPosOrig := Vec2D.zero },
    kids := kids, alignH := al, alignV := Align.top, spc := 0,
    overflow := Overflow.auto, scrollBarWidth := 16,
    childSize := Vec2D.zero, extraSize := Vec2D.zero,
    hasHScroll := false, hasVScroll := false, hScroll := none, vScroll := none }

/-- Main-axis sizes produced by the arrangement walk, as a map over the
input children: baseline (Need or Pref) plus the proportional stretch
share for qualifying children. -/
theorem arrangeWalk_map_sizes (d : Dims2D) (up sM sN aS : Bool) (e tot es : ℚ)
    (kids : List Child) : ∀ (i : ℕ) (pos : ℚ),
    (Layout.arrangeWalk d up sM sN aS e tot es i pos kids).map
        (fun k => k.layData.allocSize.dim d) =
      kids.map (fun k =>
        (if up then k.layData.size.pref.dim d else k.layData.size.need.dim d) +
        (if sM then
          (if k.layData.size.hasMaxStretch d then
            e * (k.layData.size.pref.dim d / tot) else 0)
        else if sN then
          (if k.layData.size.hasMaxStretch d ∨ k.layData.size.canStretchNeed d then
            e * (k.layData.size.pref.dim d / tot) else 0)
        else 0)) := by
  induction kids with
  | nil => intro i pos; rfl
  | cons k ks ih =>
    intro i pos
    simp only [Layout.arrangeWalk, List.map_cons, Vec2D.dim_setDim, ih]
    refine congrArg (fun q => q :: _) ?_
    split_ifs <;> ring

end Goki

/-- Scalar core of the `UpdateSizes` clamping argument. -/
theorem minPos_clamp_core (n p a m : ℚ) :
    Vec2D.minPos (max n a) m ≤ Vec2D.minPos (max p (max n a)) m ∧
    (0 < m → Vec2D.minPos (max p (max n a)) m ≤ m) := by
  unfold Vec2D.minPos
  by_cases h : 0 < m
  · simp only [h, if_pos]
    exact ⟨min_le_min (le_max_right _ _) le_rfl, fun _ => min_le_right _ _⟩
  · simp only [h, if_neg, if_false]
    exact ⟨le_max_right _ _, fun hm => hm.elim⟩

/-- C1. After `UpdateSizes()` the sizes satisfy `Need ≤ Pref` on each
dimension, and `Pref.dim ≤ Max.dim` on every dimension where `Max.dim > 0`
(the clamping order — Need-raising before Max-clamping — makes this hold
for every input record). -/
theorem updateSizes_clamps (ld : LayoutData) (d : Dims2D) :
    (ld.updateSizes.size.need.dim d ≤ ld.updateSizes.size.pref.dim d) ∧
    (0 < ld.size.max.dim d →
      ld.updateSizes.size.pref.dim d ≤ ld.updateSizes.size.max.dim d) := by
  cases ld with
  | mk size allocPos allocSize allocPosOrig =>
    cases d <;>
      simpa only [LayoutData.updateSizes, Vec2D.setMax, Vec2D.vmax, Vec2D.setMinPos,
        Vec2D.dim] using minPos_clamp_core _ _ _ _

/-- Concrete input record for the C1 witness. -/
def c1ex : LayoutData :=
  { size := { need := ⟨3, 0⟩, pref := ⟨1, 0⟩, max := ⟨5, 0⟩ },
    allocPos := Vec2D.zero, allocSize := ⟨7, 0⟩, allocPosOrig := Vec2D.zero }

/-- Witness for C1 at a concrete record with a positive Max on X. -/
theorem updateSizes_clamps_witness :
    (0 : ℚ) < c1ex.size.max.dim Dims2D.X ∧
    (c1ex.updateSizes.size.need.dim Dims2D.X ≤ c1ex.updateSizes.size.pref.dim Dims2D.X ∧
      c1ex.updateSizes.size.pref.dim Dims2D.X ≤ c1ex.updateSizes.size.max.dim Dims2D.X) :=
  ⟨by norm_num [c1ex, Vec2D.dim],
   (updateSizes_clamps c1ex Dims2D.X).1,
   (updateSizes_clamps c1ex Dims2D.X).2 (by norm_num [c1ex, Vec2D.dim])⟩

namespace Goki

/-- C2. In `LayoutAll`, when the available space fits the preferred total
(no fallback to Need), every child's main-axis `AllocSize` equals its Pref
plus — only for children carrying the `Max < 0` stretch sentinel — the
clamped extra times `childPref / sumOfStretchyPrefs`.  Non-stretch children
keep exactly their Pref. -/
theorem layoutAll_stretch_only (ly : Layout) (d : Dims2D)
    (h : ¬(ly.layData.allocSize.dim d - 2 * ly.spc - ly.layData.size.pref.dim d
        < -(1/10 : ℚ))) :
    (ly.layoutAll d).kidSizes d = ly.kids.map (fun k =>
      k.layData.size.pref.dim d +
        (if k.layData.size.hasMaxStretch d then
          max (ly.layData.allocSize.dim d - 2 * ly.spc - ly.layData.size.pref.dim d) 0 *
            (k.layData.size.pref.dim d /
              ly.kids.foldl (fun s k2 =>
                if k2.layData.size.hasMaxStretch d then s + k2.layData.size.pref.dim d else s) 0)
        else 0)) := by
  unfold Layout.layoutAll Layout.kidSizes
  by_cases hk : ly.kids.length = 0
  · rw [if_pos hk]
    simp [List.length_eq_zero.mp hk]
  · rw [if_neg hk]
    simp only [arrangeWalk_map_sizes, decide_eq_true h, if_true]
    by_cases he :
        0 < max (ly.layData.allocSize.dim d - 2 * ly.spc - ly.layData.size.pref.dim d) 0
    · by_cases hn :
          0 < List.countP (fun k => decide (k.layData.size.hasMaxStretch d)) ly.kids
      · simp [he, hn]
      · have hz := List.countP_eq_zero.mp (Nat.eq_zero_of_not_pos hn)
        refine List.map_congr_left (fun k hkk => ?_)
        have hns : ¬ k.layData.size.hasMaxStretch d := by
          have := hz k hkk
          simpa using this
        simp [he, hn, hns]
    · have he0 : max (ly.layData.allocSize.dim d - 2 * ly.spc
          - ly.layData.size.pref.dim d) 0 = 0 :=
        le_antisymm (not_lt.mp he) (le_max_right _ _)
      simp [he0, ite_self]

/-- C2 scenario layouts. -/
def c2rowB : Layout := mkRow 300 150 150 Align.left [plainChild 50 50 0, plainChild 100 100 (-1)]

def c2rowA : Layout := mkRow 80 40 40 Align.left [plainChild 10 10 (-1), plainChild 30 30 (-1)]

/-- Witness for C2: the 300-wide Row with a plain Pref-50 child and a
stretchy Pref-100 child allocates [50, 250]; two stretchy siblings with
Pref 10 and 30 sharing extra 40 receive 10 and 30 more (sizes [20, 60]). -/
theorem layoutAll_stretch_only_witness :
    ¬(c2rowB.layData.allocSize.dim Dims2D.X - 2 * c2rowB.spc
        - c2rowB.layData.size.pref.dim Dims2D.X < -(1/10 : ℚ)) ∧
    (c2rowB.layoutAll Dims2D.X).kidSizes Dims2D.X = [50, 250] ∧
    (c2rowA.layoutAll Dims2D.X).kidSizes Dims2D.X = [20, 60] := by
  refine ⟨by norm_num [c2rowB, mkRow, Vec2D.dim], ?_, ?_⟩
  · rw [layoutAll_stretch_only c2rowB Dims2D.X (by norm_num [c2rowB, mkRow, Vec2D.dim])]
    norm_num [c2rowB, mkRow, plainChild, SizePrefs.hasMaxStretch, Vec2D.dim]
  · rw [layoutAll_stretch_only c2rowA Dims2D.X (by norm_num [c2rowA, mkRow, Vec2D.dim])]
    norm_num [c2rowA, mkRow, plainChild, SizePrefs.hasMaxStretch, Vec2D.dim]

/-- C3 scenario layout: three children of Pref widths 50, 100, 150 in a
400-wide Row with justify alignment. -/
def c3row : Layout :=
  mkRow 400 300 300 Align.justify [plainChild 50 50 0, plainChild 100 100 0, plainChild 150 150 0]

/-- Counterexample to C3 as stated: for the 400-wide justify Row with
children 50/100/150, the arrange pass does not produce AllocPos.X
[0, 150, 300] (those positions would overflow the container). -/
theorem c3_justify_counterexample :
    ¬((c3row.layoutAll Dims2D.X).kidPoss Dims2D.X = [0, 150, 300]) := by
  norm_num [c3row, mkRow, plainChild, Layout.layoutAll, Layout.arrangeWalk, Layout.kidPoss,
    Layout.alignDim, Vec2D.dim, Vec2D.setDim, Vec2D.zero, SizePrefs.hasMaxStretch,
    SizePrefs.canStretchNeed, isAlignEnd]

/-- C3 (amended). The justify arrangement keeps each child at its Pref
width (50, 100, 150) and distributes the 100px extra as two equal 50px
inter-child gaps applied before each child except the first, yielding
AllocPos.X = [0, 100, 250]. -/
theorem c3_justify_amended :
    (c3row.layoutAll Dims2D.X).kidPoss Dims2D.X = [0, 100, 250] ∧
    (c3row.layoutAll Dims2D.X).kidSizes Dims2D.X = [50, 100, 150] := by
  constructor <;>
    norm_num [c3row, mkRow, plainChild, Layout.layoutAll, Layout.arrangeWalk, Layout.kidPoss,
      Layout.kidSizes, Layout.alignDim, Vec2D.dim, Vec2D.setDim, Vec2D.zero,
      SizePrefs.hasMaxStretch, SizePrefs.canStretchNeed, isAlignEnd]

/-- Helper: the conditional pref-sums are nonnegative for nonneg prefs. -/
theorem foldl_condSum_nonneg (d : Dims2D) (P : Child → Prop) [DecidablePred P]
    (kids : List Child) (h : ∀ k ∈ kids, 0 ≤ k.layData.size.pref.dim d) :
    ∀ s : ℚ, 0 ≤ s →
      0 ≤ kids.foldl (fun s k => if P k then s + k.layData.size.pref.dim d else s) s := by
  induction kids with
  | nil => intro s hs; simpa using hs
  | cons k ks ih =>
    intro s hs
    simp only [List.foldl_cons]
    refine ih (fun k2 hk2 => h k2 (List.mem_cons_of_mem _ hk2)) _ ?_
    have hp := h k (List.mem_cons_self _ _)
    split <;> [linarith; exact hs]

/-- C7. `LayoutAll` clamps the computed extra to `max(extra, 0)` before
distribution, so when every child's Need and Pref on the axis are
nonnegative, every assigned main-axis `AllocSize` is nonnegative — in an
overfull layout children are truncated to the Need baseline, never given a
negative extent. -/
theorem layoutAll_sizes_nonneg (ly : Layout) (d : Dims2D)
    (h : ∀ k ∈ ly.kids, 0 ≤ k.layData.size.need.dim d ∧ 0 ≤ k.layData.size.pref.dim d) :
    ∀ q ∈ (ly.layoutAll d).kidSizes d, 0 ≤ q := by
  unfold Layout.layoutAll Layout.kidSizes
  by_cases hk : ly.kids.length = 0
  · rw [if_pos hk]
    simp [List.length_eq_zero.mp hk]
  · rw [if_neg hk]
    intro q hq
    rw [arrangeWalk_map_sizes] at hq
    simp only [List.mem_map] at hq
    obtain ⟨k, hkk, rfl⟩ := hq
    have hp := (h k hkk).2
    have hn := (h k hkk).1
    have htotM : (0:ℚ) ≤ ly.kids.foldl (fun s k =>
        if k.layData.size.hasMaxStretch d then s + k.layData.size.pref.dim d else s) 0 :=
      foldl_condSum_nonneg d _ ly.kids (fun k2 hk2 => (h k2 hk2).2) 0 le_rfl
    have htotN : (0:ℚ) ≤ ly.kids.foldl (fun s k =>
        if k.layData.size.hasMaxStretch d ∨ k.layData.size.canStretchNeed d then
          s + k.layData.size.pref.dim d else s) 0 :=
      foldl_condSum_nonneg d _ ly.kids (fun k2 hk2 => (h k2 hk2).2) 0 le_rfl
    have hr : ∀ (e tot : ℚ), 0 ≤ e → 0 ≤ tot →
        0 ≤ e * (k.layData.size.pref.dim d / tot) :=
      fun e tot he htot => mul_nonneg he (div_nonneg hp htot)
    refine add_nonneg ?_ ?_
    · split <;> assumption
    · split_ifs <;>
        first
          | exact le_rfl
          | exact hr _ _ (le_max_right _ _) htotM
          | exact hr _ _ (le_max_right _ _) htotN

/-- C7 scenario: more Need than available space. -/
def c7row : Layout := mkRow 50 60 80 Align.left [plainChild 30 40 0, plainChild 30 40 0]

/-- Witness for C7 at an overfull Row (Need 60 in 50 available). -/
theorem layoutAll_sizes_nonneg_witness :
    (∀ k ∈ c7row.kids, 0 ≤ k.layData.size.need.dim Dims2D.X ∧
      0 ≤ k.layData.size.pref.dim Dims2D.X) ∧
    (0 : ℚ) ≤ ((c7row.layoutAll Dims2D.X).kidSizes Dims2D.X).head! := by
  have hyp : ∀ k ∈ c7row.kids, 0 ≤ k.layData.size.need.dim Dims2D.X ∧
      0 ≤ k.layData.size.pref.dim Dims2D.X := by
    intro k hk
    fin_cases hk <;> norm_num [plainChild, Vec2D.dim]
  refine ⟨hyp, layoutAll_sizes_nonneg c7row Dims2D.X hyp _ (List.head!_mem_self ?_)⟩
  norm_num [c7row, mkRow, plainChild, Layout.layoutAll, Layout.arrangeWalk, Layout.kidSizes,
    Layout.alignDim, Vec2D.dim, Vec2D.setDim, Vec2D.zero, SizePrefs.hasMaxStretch,
    SizePrefs.canStretchNeed, isAlignEnd]
  simp

end Goki

namespace Goki

/-- A Column child of height `h` (Need = Pref = h on Y, nothing on X). -/
def colKid (h : ℚ) : Child :=
  { layData :=
      { size := { need := ⟨0, h⟩, pref := ⟨0, h⟩, max := ⟨0, 0⟩ },
        allocPos := Vec2D.zero, allocSize := Vec2D.zero, allocPosOrig := Vec2D.zero },
    alignH := Align.left, alignV := Align.top }

/-- A Column layout of width `w` and height `c` whose gathered Need/Pref on Y
equal the children's summed heights; no box spacing, overflow Auto. -/
def mkCol (w c : ℚ) (hs : List ℚ) : Layout :=
  { lay := Layouts.col,
    layData :=
      { size := { need := ⟨0, hs.sum⟩, pref := ⟨0, hs.sum⟩, max := Vec2D.zero },
        allocPos := Vec2D.zero, allocSize := ⟨w, c⟩, allocPosOrig := Vec2D.zero },
    kids := hs.map colKid, alignH := Align.left, alignV := Align.top, spc := 0,
    overflow := Overflow.auto, scrollBarWidth := 16,
    childSize := Vec2D.zero, extraSize := Vec2D.zero,
    hasHScroll := false, hasVScroll := false, hScroll := none, vScroll := none }

/-- The expected per-child record after the whole Column arrange pipeline. -/
def colKidFin (h pos : ℚ) : Child :=
  { layData :=
      { size := { need := ⟨0, h⟩, pref := ⟨0, h⟩, max := ⟨0, 0⟩ },
        allocPos := ⟨0, pos⟩, allocSize := ⟨0, h⟩, allocPosOrig := ⟨0, pos⟩ },
    alignH := Align.left, alignV := Align.top }

/-- Finished children of the Column family, positions accumulating. -/
def colFinList : List ℚ → ℚ → List Child
  | [], _ => []
  | h :: t, pos => colKidFin h pos :: colFinList t (pos + h)

/-- Intermediate: after `LayoutAll(Y)` only (no X geometry, no PosOrig). -/
def colKidY (h pos : ℚ) : Child :=
  { layData :=
      { size := { need := ⟨0, h⟩, pref := ⟨0, h⟩, max := ⟨0, 0⟩ },
        allocPos := ⟨0, pos⟩, allocSize := ⟨0, h⟩, allocPosOrig := Vec2D.zero },
    alignH := Align.left, alignV := Align.top }

def colYList : List ℚ → ℚ → List Child
  | [], _ => []
  | h :: t, pos => colKidY h pos :: colYList t (pos + h)

theorem colFam_walk (up sM sN aS : Bool) (e tot es : ℚ)
    (hsM : sM = false) (hsN : sN = false) (haS : aS = false) :
    ∀ (hs : List ℚ) (i : ℕ) (pos : ℚ),
    Layout.arrangeWalk Dims2D.Y up sM sN aS e tot es i pos (hs.map colKid)
      = colYList hs pos := by
  subst hsM hsN haS
  intro hs
  induction hs with
  | nil => intro i pos; rfl
  | cons h t ih =>
    intro i pos
    simp [Layout.arrangeWalk, colKid, colYList, colKidY, Vec2D.setDim, Vec2D.zero,
      Vec2D.dim, ih, ite_self]

theorem colFam_layoutAll (w c : ℚ) (hs : List ℚ) (hne : hs ≠ []) :
    (mkCol w c hs).layoutAll Dims2D.Y = { mkCol w c hs with kids := colYList hs 0 } := by
  have hlen : ¬((mkCol w c hs).kids.length = 0) := by
    simp [mkCol, hne]
  have hcM : List.countP (fun k => decide (k.layData.size.hasMaxStretch Dims2D.Y))
      (mkCol w c hs).kids = 0 := by
    simp [mkCol, List.countP_map, Function.comp, colKid, SizePrefs.hasMaxStretch, Vec2D.dim]
  have hcN : List.countP (fun k => decide (k.layData.size.hasMaxStretch Dims2D.Y ∨
      k.layData.size.canStretchNeed Dims2D.Y)) (mkCol w c hs).kids = 0 := by
    simp [mkCol, List.countP_map, Function.comp, colKid, SizePrefs.hasMaxStretch,
      SizePrefs.canStretchNeed, Vec2D.dim]
  unfold Layout.layoutAll
  rw [if_neg hlen]
  simp only [hcM, hcN, Layout.alignDim]
  simp only [mkCol]
  simp [isAlignEnd]
  exact colFam_walk _ false false false _ _ _ rfl rfl rfl hs 0 0

/-- The arranged state of the Column family after finalize. -/
def colArranged (w c : ℚ) (hs : List ℚ) : Layout :=
  { mkCol w c hs with kids := colFinList hs 0, childSize := ⟨0, hs.sum⟩ }

theorem single0 (w : ℚ) (hW : 0 ≤ w) :
    Layout.layoutSingleImpl 0 w 0 0 0 Align.left = (0, 0) := by
  unfold Layout.layoutSingleImpl
  have hf : ¬(w - 0 < -(1/10 : ℚ)) := by intro hcon; linarith
  simp only [decide_eq_true hf, isAlignMiddle, isAlignEnd, lt_irrefl, not_and_self_iff]
  simp [ite_self]

theorem singleKid_colKidY (w h p : ℚ) (hW : 0 ≤ w) :
    Layout.singleKid 0 w Dims2D.X (colKidY h p) = colKidY h p := by
  unfold Layout.singleKid
  simp [colKidY, Child.alignDim, Vec2D.dim, single0 w hW, Vec2D.setDim]

theorem colYList_single (w : ℚ) (hW : 0 ≤ w) :
    ∀ (hs : List ℚ) (p : ℚ),
    (colYList hs p).map (Layout.singleKid 0 w Dims2D.X) = colYList hs p := by
  intro hs
  induction hs with
  | nil => intro p; rfl
  | cons h t ih =>
    intro p
    simp only [colYList, List.map_cons, ih, singleKid_colKidY w h p hW]

theorem colFam_layoutSingle (w c : ℚ) (hs : List ℚ) (hW : 0 ≤ w) :
    ({ mkCol w c hs with kids := colYList hs 0 } : Layout).layoutSingle Dims2D.X
      = { mkCol w c hs with kids := colYList hs 0 } := by
  unfold Layout.layoutSingle
  have hsp : ({ mkCol w c hs with kids := colYList hs 0 } : Layout).spc = 0 := rfl
  have hav : ({ mkCol w c hs with kids := colYList hs 0 } :
      Layout).layData.allocSize.dim Dims2D.X - 2 * 0 = w := by
    simp [mkCol, Vec2D.dim]
  rw [hsp, hav]
  have hkids : ({ mkCol w c hs with kids := colYList hs 0 } : Layout).kids
      = colYList hs 0 := rfl
  rw [hkids, colYList_single w hW hs 0]
  rfl

theorem colYList_orig : ∀ (hs : List ℚ) (p : ℚ),
    (colYList hs p).map Layout.finKid = colFinList hs p := by
  intro hs
  induction hs with
  | nil => intro p; rfl
  | cons h t ih =>
    intro p
    simp only [colYList, List.map_cons, ih, colFinList]
    simp [Layout.finKid, colKidY, colKidFin]

theorem colFinList_fold (hs : List ℚ) (hnn : ∀ h ∈ hs, 0 ≤ h) (hne : hs ≠ []) :
    ∀ (p : ℚ) (m : Vec2D),
    List.foldl Layout.boundMax m (colFinList hs p) = ⟨max m.x 0, max m.y (p + hs.sum)⟩ := by
  induction hs with
  | nil => exact absurd rfl hne
  | cons h t ih =>
    intro p m
    rcases eq_or_ne t [] with ht | ht
    · subst ht
      simp [colFinList, colKidFin, Layout.boundMax, Vec2D.vmax, Vec2D.add]
    · have hnn' : ∀ x ∈ t, 0 ≤ x := fun x hx => hnn x (List.mem_cons_of_mem _ hx)
      have hsum : (0:ℚ) ≤ t.sum := List.sum_nonneg hnn'
      simp only [colFinList, List.foldl_cons, ih hnn' ht]
      simp only [colKidFin, Layout.boundMax, Vec2D.vmax, Vec2D.add]
      refine congrArg₂ Vec2D.mk ?_ ?_
      · simp [max_assoc]
      · rw [max_assoc]
        rw [max_eq_right (by linarith : p + h ≤ p + h + t.sum)]
        rw [List.sum_cons]
        ring_nf

theorem colFam_finalize (w c : ℚ) (hs : List ℚ) (hnn : ∀ h ∈ hs, 0 ≤ h) (hne : hs ≠ []) :
    ({ mkCol w c hs with kids := colYList hs 0 } : Layout).finalizeLayout
      = colArranged w c hs := by
  have hsum : (0:ℚ) ≤ hs.sum := List.sum_nonneg hnn
  have hkids : ({ mkCol w c hs with kids := colYList hs 0 } : Layout).kids
      = colYList hs 0 := rfl
  simp only [Layout.finalizeLayout, hkids, colYList_orig hs 0,
    colFinList_fold hs hnn hne 0 Vec2D.zero]
  unfold colArranged
  simp [Vec2D.zero, max_eq_right hsum, mkCol]

theorem colFinList_length : ∀ (hs : List ℚ) (p : ℚ),
    (colFinList hs p).length = hs.length := by
  intro hs
  induction hs with
  | nil => intro p; rfl
  | cons h t ih => intro p; simp [colFinList, ih]

theorem colFam_overflow (w c : ℚ) (hs : List ℚ) (hW : 0 ≤ w) (hne : hs ≠ []) :
    ((colArranged w c hs).manageOverflow.hasVScroll = decide (c < hs.sum)) ∧
    (c < hs.sum →
      (colArranged w c hs).manageOverflow.vScroll.map ScrollBar.max = some hs.sum) := by
  have hlen : ¬((colArranged w c hs).kids.length = 0) := by
    simp [colArranged, mkCol, colFinList_length, hne]
  have hH : ¬((w : ℚ) < 0) := by linarith
  unfold Layout.manageOverflow
  rw [if_neg hlen]
  simp only [colArranged, mkCol, Layout.setVScroll, Layout.setHScroll]
  simp [Vec2D.subVal, Vec2D.dim, sub_zero, decide_eq_false hH, Vec2D.zero]
  constructor
  · by_cases hv : c < hs.sum
    · simp [hv]
    · simp [hv]
  · intro hv
    simp [hv]

/-- C4. For a Column layout (no margin, overflow Auto) with children of
nonnegative heights `hs` summing to `H`: in a container of height `H-1`
the arrange pipeline enters the Scrolling state on Y and the vertical
scrollbar's Max equals `H`; in containers of height `H` or `H+1` the
layout stays in the NoScroll state on Y. -/
theorem col_overflow_boundary (w : ℚ) (hs : List ℚ) (hne : hs ≠ [])
    (hnn : ∀ h ∈ hs, 0 ≤ h) (hW : 0 ≤ w) :
    ((mkCol w (hs.sum - 1) hs).layout2DCol.hasVScroll = true ∧
      (mkCol w (hs.sum - 1) hs).layout2DCol.vScroll.map ScrollBar.max = some hs.sum) ∧
    (mkCol w hs.sum hs).layout2DCol.hasVScroll = false ∧
    (mkCol w (hs.sum + 1) hs).layout2DCol.hasVScroll = false := by
  have hpipe : ∀ c, (mkCol w c hs).layout2DCol = (colArranged w c hs).manageOverflow := by
    intro c
    unfold Layout.layout2DCol
    rw [colFam_layoutAll w c hs hne, colFam_layoutSingle w c hs hW,
      colFam_finalize w c hs hnn hne]
  refine ⟨⟨?_, ?_⟩, ?_, ?_⟩
  · rw [hpipe, (colFam_overflow w _ hs hW hne).1]
    exact decide_eq_true (by linarith)
  · rw [hpipe]
    exact (colFam_overflow w _ hs hW hne).2 (by linarith)
  · rw [hpipe, (colFam_overflow w _ hs hW hne).1]
    exact decide_eq_false (by simp)
  · rw [hpipe, (colFam_overflow w _ hs hW hne).1]
    exact decide_eq_false (by intro hcon; linarith)

/-- Witness for C4 with heights [30, 40] in a 100-wide column. -/
theorem col_overflow_boundary_witness :
    (([30, 40] : List ℚ) ≠ [] ∧ (∀ h ∈ ([30, 40] : List ℚ), 0 ≤ h) ∧ (0:ℚ) ≤ 100) ∧
    (((mkCol 100 (([30, 40] : List ℚ).sum - 1) [30, 40]).layout2DCol.hasVScroll = true ∧
      (mkCol 100 (([30, 40] : List ℚ).sum - 1)
          [30, 40]).layout2DCol.vScroll.map ScrollBar.max = some ([30, 40] : List ℚ).sum) ∧
    (mkCol 100 ([30, 40] : List ℚ).sum [30, 40]).layout2DCol.hasVScroll = false ∧
    (mkCol 100 (([30, 40] : List ℚ).sum + 1) [30, 40]).layout2DCol.hasVScroll = false) :=
  ⟨⟨by simp, by norm_num, by norm_num⟩,
   col_overflow_boundary 100 [30, 40] (by simp) (by norm_num) (by norm_num)⟩

end Goki

namespace Goki

/-- The `rows++` loop of `GatherSizesGrid` (src line 1342:
`for rows*cols < sz { rows++ }`).  The `cols = 0` guard is only for
Lean-side termination; it is unreachable, since `cols = Nat.sqrt sz ≥ 1`
whenever the layout has children (`sz ≥ 1`). -/
def gridRowsLoop (cols sz rows : ℕ) : ℕ :=
  if rows * cols < sz then
    if cols = 0 then rows
    else gridRowsLoop cols sz (rows + 1)
  else rows
termination_by sz - rows * cols
decreasing_by
  rename_i h1 h2
  have hc : 1 ≤ cols := Nat.one_le_iff_ne_zero.mpr h2
  have : rows * cols + 1 ≤ (rows + 1) * cols := by
    have := Nat.add_le_add_left hc (rows * cols)
    calc rows * cols + 1 ≤ rows * cols + cols := this
    _ = (rows + 1) * cols := by ring
  omega

/-- Grid size computation of `GatherSizesGrid` (src lines 1317-1347) in the
case the claim is about: no child has explicit row/col hints.  `int(math.Sqrt)`
on a small cardinality is the floor square root, modelled by `Nat.sqrt`. -/
def gridSize (styleCols sz : ℕ) : ℕ × ℕ :=
  let cols := if styleCols = 0 then Nat.sqrt sz else styleCols
  let rows := sz / cols
  (cols, gridRowsLoop cols sz rows)

/-- The row-major fill of `GatherSizesGrid` (src lines 1365-1401, hint-less
children): assign (col,row) cells in order, wrapping at the column count and
at the row count. -/
def gridFillPos (cols rows : ℕ) : ℕ → ℕ × ℕ → List (ℕ × ℕ)
  | 0, _ => []
  | n + 1, (col, row) =>
    (col, row) ::
      (if col + 1 ≥ cols then
        gridFillPos cols rows n (0, if row + 1 ≥ rows then 0 else row + 1)
      else gridFillPos cols rows n (col + 1, row))

/-- Cell positions (col,row) of `n` hint-less children in a grid with no
explicit column count. -/
def gridPositions (n : ℕ) : List (ℕ × ℕ) :=
  gridFillPos (gridSize 0 n).1 (gridSize 0 n).2 n (0, 0)

/-- The column count the spec's words prescribe: `ceil(sqrt(childCount))`
(refinement comparison definition, for C6 only). -/
def specCeilSqrtCols (n : ℕ) : ℕ :=
  if Nat.sqrt n * Nat.sqrt n = n then Nat.sqrt n else Nat.sqrt n + 1

theorem sqrt_four : Nat.sqrt 4 = 2 := by
  have h : (4 : ℕ) = 2 * 2 := by norm_num
  rw [h, Nat.sqrt_eq]

theorem sqrt_five : Nat.sqrt 5 = 2 := (Nat.eq_sqrt.mpr (by norm_num)).symm

/-- Counterexample to C6 as stated: with five hint-less children the code
computes floor(sqrt 5) = 2 columns, not ceil(sqrt 5) = 3. -/
theorem grid_cols_counterexample :
    (gridSize 0 5).1 = 2 ∧ specCeilSqrtCols 5 = 3 ∧ (2 : ℕ) ≠ 3 := by
  refine ⟨by simp [gridSize, sqrt_five], ?_, by decide⟩
  simp [specCeilSqrtCols, sqrt_five]

/-- C6 (amended). With no hints and no explicit column count the number of
columns is floor(sqrt(childCount)) (rows grow to fit); four hint-less
children produce a 2×2 grid filled row-major, with child0 at (col 0, row 0)
and child1 at (col 1, row 0). -/
theorem grid_implicit_fill :
    (∀ n : ℕ, (gridSize 0 n).1 = Nat.sqrt n) ∧
    gridSize 0 4 = (2, 2) ∧
    gridPositions 4 = [(0, 0), (1, 0), (0, 1), (1, 1)] := by
  have hgs : gridSize 0 4 = (2, 2) := by
    simp only [gridSize, sqrt_four]
    norm_num
    rw [gridRowsLoop]
    norm_num
  refine ⟨fun n => rfl, hgs, ?_⟩
  unfold gridPositions
  rw [hgs]
  show gridFillPos 2 2 4 (0, 0) = _
  simp [gridFillPos]

/-- `Layout.RenderChild` (old engine, src lines 649-676): at render time a
child's effective `AllocPos` is recomputed from the cached `AllocPosOrig`
minus the present scrollbars' current values; nothing else is touched. -/
def renderChildAdjust (hScroll vScroll : Option ScrollBar) (ld : LayoutData) : LayoutData :=
  let p := ld.allocPosOrig
  let p1 := match hScroll with
    | some sb => { p with x := p.x - sb.value }
    | none => p
  let p2 := match vScroll with
    | some sb => { p1 with y := p1.y - sb.value }
    | none => p1
  { ld with allocPos := p2 }

/-- C8. Applying the scroll offset changes only the effective `AllocPos`:
it becomes `AllocPosOrig` minus the scrollbar value on each scrolled axis,
while `AllocPosOrig` and `AllocSize` are left exactly as the arrange pass
set them; and `Move2DDelta` of the zero delta is minus the scroll values. -/
theorem scroll_offset_only_moves (ld : LayoutData) (hs vs : Option ScrollBar) (ly : Layout) :
    ((renderChildAdjust hs vs ld).allocPos =
      ⟨ld.allocPosOrig.x - (hs.map ScrollBar.value).getD 0,
        ld.allocPosOrig.y - (vs.map ScrollBar.value).getD 0⟩ ∧
      (renderChildAdjust hs vs ld).allocPosOrig = ld.allocPosOrig ∧
      (renderChildAdjust hs vs ld).allocSize = ld.allocSize) ∧
    (ly.move2DDelta Vec2D.zero =
      ⟨-(if ly.hasHScroll then (ly.hScroll.map ScrollBar.value).getD 0 else 0),
        -(if ly.hasVScroll then (ly.vScroll.map ScrollBar.value).getD 0 else 0)⟩) := by
  constructor
  · unfold renderChildAdjust
    cases hs <;> cases vs <;> simp [Option.map, Option.getD]
  · unfold Layout.move2DDelta
    cases hh : ly.hasHScroll <;> cases hv : ly.hasVScroll <;>
      simp [hh, hv, Vec2D.zero]

end Goki

namespace Goki

/-- `Unit` (src/unnamed/part_005 lines 44-102); `In` is spelt `inch` since
`in` is reserved in Lean. -/
inductive UnitKind where
  | px
  | dp
  | pct
  | rem
  | em
  | ex
  | ch
  | vw
  | vh
  | vmin
  | vmax
  | cm
  | mm
  | q
  | inch
  | pc
  | pt
  | dot
deriving DecidableEq, Repr

/-- Conversion constants (src/unnamed/part_005 lines 35-42), exact in ℚ. -/
def pxPerInch : ℚ := 96

def dpPerInch : ℚ := 160

def mmPerInch : ℚ := 254/10

def cmPerInch : ℚ := 254/100

def ptPerInch : ℚ := 72

def pcPerInch : ℚ := 6

/-- `units.Context` (src/unnamed/part_005 lines 134-153). -/
structure UContext where
  dpi : ℚ
  fontEm : ℚ
  fontEx : ℚ
  fontCh : ℚ
  fontRem : ℚ
  vpW : ℚ
  vpH : ℚ
  elW : ℚ
  elH : ℚ
deriving DecidableEq, Repr

namespace UContext

/-- `Context.Defaults()` (src/unnamed/part_005 lines 155-165). -/
def defaults : UContext :=
  { dpi := pxPerInch, fontEm := 12, fontEx := 6, fontCh := 6, fontRem := 12,
    vpW := 800, vpH := 600, elW := 800, elH := 600 }

/-- The switch of `Context.ToDotsFactor` (src/unnamed/part_005 lines 199-237),
applied to the (possibly defaulted) context values. -/
def toDotsFactorRaw (uc : UContext) : UnitKind → ℚ
  | UnitKind.pct => uc.elW
  | UnitKind.em => uc.dpi / (ptPerInch / uc.fontEm)
  | UnitKind.ex => uc.dpi / (ptPerInch / uc.fontEx)
  | UnitKind.ch => uc.dpi / (ptPerInch / uc.fontCh)
  | UnitKind.rem => uc.dpi / (ptPerInch / uc.fontRem)
  | UnitKind.vw => uc.vpW
  | UnitKind.vh => uc.vpH
  | UnitKind.vmin => min uc.vpW uc.vpH
  | UnitKind.vmax => max uc.vpW uc.vpH
  | UnitKind.cm => uc.dpi / cmPerInch
  | UnitKind.mm => uc.dpi / mmPerInch
  | UnitKind.q => uc.dpi / (4 * mmPerInch)
  | UnitKind.inch => uc.dpi
  | UnitKind.pc => uc.dpi / pcPerInch
  | UnitKind.pt => uc.dpi / ptPerInch
  | UnitKind.px => uc.dpi / pxPerInch
  | UnitKind.dp => uc.dpi / dpPerInch
  | UnitKind.dot => 1

/-- `Context.ToDotsFactor` (src lines 194-238): an uninitialized context
(`DPI == 0`) is first replaced by `Defaults()`. -/
def toDotsFactor (uc : UContext) (un : UnitKind) : ℚ :=
  if uc.dpi = 0 then toDotsFactorRaw defaults un else toDotsFactorRaw uc un

/-- `Context.ToDots` (src lines 241-243). -/
def toDots (uc : UContext) (val : ℚ) (un : UnitKind) : ℚ :=
  val * uc.toDotsFactor un

end UContext

/-- C9. Calling `ToDots` with an uninitialized context (DPI = 0) never uses
the zero DPI: the context is replaced by the documented defaults (DPI 96,
font em 12pt, viewport 800×600), the result equals the conversion under a
defaulted context, and every per-unit factor it uses is strictly positive
(in particular no division by a zero DPI occurs). -/
theorem toDots_zero_dpi_defaults (uc : UContext) (hdpi : uc.dpi = 0) :
    (∀ (un : UnitKind) (val : ℚ),
      uc.toDots val un = UContext.defaults.toDots val un) ∧
    (∀ un : UnitKind, 0 < uc.toDotsFactor un) ∧
    UContext.defaults.dpi = 96 ∧ UContext.defaults.fontEm = 12 ∧
    UContext.defaults.vpW = 800 ∧ UContext.defaults.vpH = 600 := by
  have hfac : ∀ un, uc.toDotsFactor un = UContext.defaults.toDotsFactor un := by
    intro un
    unfold UContext.toDotsFactor
    rw [if_pos hdpi, if_neg (by norm_num [UContext.defaults, pxPerInch])]
  refine ⟨fun un val => by unfold UContext.toDots; rw [hfac], fun un => ?_,
    rfl, rfl, rfl, rfl⟩
  rw [hfac]
  unfold UContext.toDotsFactor
  rw [if_neg (by norm_num [UContext.defaults, pxPerInch])]
  cases un <;>
    norm_num [UContext.toDotsFactorRaw, UContext.defaults, pxPerInch, dpPerInch,
      mmPerInch, cmPerInch, ptPerInch, pcPerInch]

/-- A concrete uninitialized context (DPI 0; other junk values, to show
they are ignored). -/
def zeroDpiCtx : UContext :=
  { dpi := 0, fontEm := 5, fontEx := 5, fontCh := 5, fontRem := 5,
    vpW := 111, vpH := 222, elW := 333, elH := 444 }

/-- Witness for C9 at a concrete DPI-0 context and the `em` unit. -/
theorem toDots_zero_dpi_defaults_witness :
    zeroDpiCtx.dpi = 0 ∧
    zeroDpiCtx.toDots 2 UnitKind.em = UContext.defaults.toDots 2 UnitKind.em ∧
    0 < zeroDpiCtx.toDotsFactor UnitKind.em :=
  ⟨rfl, (toDots_zero_dpi_defaults zeroDpiCtx rfl).1 UnitKind.em 2,
    (toDots_zero_dpi_defaults zeroDpiCtx rfl).2.1 UnitKind.em⟩

end Goki

namespace Goki

/-- Modelled from the spec: ASCII whitespace for `strings.TrimSpace`
(Go standard library, not in src). -/
def isSpaceChar (c : Char) : Bool :=
  c = ' ' ∨ c = '\t' ∨ c = '\n' ∨ c = '\r'

/-- Modelled from the spec: `strings.TrimSpace` (Go standard library, not in
src) — drop whitespace from both ends.  Strings are modelled as `List Char`
(all inputs of interest are ASCII, where Go's byte slicing and rune
handling coincide). -/
def trimChars (s : List Char) : List Char :=
  ((s.dropWhile isSpaceChar).reverse.dropWhile isSpaceChar).reverse

/-- `UnitNames` (src/unnamed/part_005 lines 111-130), in declaration order
of the `Unit` enum — the order the `SetFromString` loop iterates in. -/
def unitNames : List (UnitKind × List Char) :=
  [(UnitKind.px, ['p', 'x']),
   (UnitKind.dp, ['d', 'p']),
   (UnitKind.pct, ['p', 'c', 't']),
   (UnitKind.rem, ['r', 'e', 'm']),
   (UnitKind.em, ['e', 'm']),
   (UnitKind.ex, ['e', 'x']),
   (UnitKind.ch, ['c', 'h']),
   (UnitKind.vw, ['v', 'w']),
   (UnitKind.vh, ['v', 'h']),
   (UnitKind.vmin, ['v', 'm', 'i', 'n']),
   (UnitKind.vmax, ['v', 'm', 'a', 'x']),
   (UnitKind.cm, ['c', 'm']),
   (UnitKind.mm, ['m', 'm']),
   (UnitKind.q, ['q']),
   (UnitKind.inch, ['i', 'n']),
   (UnitKind.pc, ['p', 'c']),
   (UnitKind.pt, ['p', 't']),
   (UnitKind.dot, ['d', 'o', 't'])]

/-- The `ends` array of `SetFromString` (src lines 298-306): the lowercased
trailing window of `k+1` characters; windows of 3 and 4 characters are only
filled when the string is strictly longer than 3 resp. 4 characters. -/
def endsAt (s : List Char) (k : ℕ) : List Char :=
  if k ≤ 1 ∨ (k = 2 ∧ 3 < s.length) ∨ (k = 3 ∧ 4 < s.length) then
    (s.drop (s.length - (k + 1))).map Char.toLower
  else []

/-- The unit-matching loop of `SetFromString` (src lines 310-317): first
unit in declaration order whose name equals the trailing window of its own
length; returns the unit and its name length. -/
def findUnit (s : List Char) : Option (UnitKind × ℕ) :=
  unitNames.findSome? (fun p =>
    if endsAt s (p.2.length - 1) = p.2 then some (p.1, p.2.length) else none)

/-- Decimal value of a digit string. -/
def digitsVal (ds : List Char) : ℕ :=
  ds.foldl (fun a c => a * 10 + (c.toNat - 48)) 0

/-- Modelled from the spec: `fmt.Sscanf(..., "%g", &val)` (Go standard
library, not in src) — "the magnitude equal to the parsed number": optional
sign, integer digits, optional fraction; an unparsable string leaves the
value 0. -/
def parseNum (s : List Char) : ℚ :=
  let sign : ℚ := if s.head? = some '-' then -1 else 1
  let rest := if s.head? = some '-' ∨ s.head? = some '+' then s.tail else s
  let intDigits := rest.takeWhile Char.isDigit
  let rest2 := rest.dropWhile Char.isDigit
  let fracDigits := if rest2.head? = some '.' then rest2.tail.takeWhile Char.isDigit else []
  if intDigits = [] ∧ fracDigits = [] then 0
  else sign * ((digitsVal intDigits : ℚ) + (digitsVal fracDigits : ℚ) / 10 ^ fracDigits.length)

/-- `Value.SetFromString` (src/unnamed/part_005 lines 291-324), returning
the (magnitude, unit) pair it stores via `v.Set`. -/
def setFromString (s : List Char) : ℚ × UnitKind :=
  let trstr := trimChars s
  let sz := trstr.length
  if sz < 2 then (0, UnitKind.px)
  else
    match findUnit trstr with
    | some (u, unsz) =>
      let numstr := trstr.take (sz - unsz)
      let numstr := if numstr.length = 0 then trstr else numstr
      (parseNum (trimChars numstr), u)
    | none => (parseNum (trimChars trstr), UnitKind.px)

theorem digit_toLower (c : Char) (h : c.isDigit) : c.toLower = c := by
  simp only [Char.isDigit, decide_eq_true_eq, Bool.and_eq_true, ge_iff_le] at h
  have h1 : c.toNat ≤ 57 := h.2
  have hn : ¬(c.toNat ≥ 65 ∧ c.toNat ≤ 90) := by omega
  simp [Char.toLower, hn]

theorem digit_not_space (c : Char) (h : c.isDigit) : isSpaceChar c = false := by
  simp only [Char.isDigit, decide_eq_true_eq, Bool.and_eq_true, ge_iff_le] at h
  have h1 : 48 ≤ c.val := h.1
  have h2 : c.val ≤ 57 := h.2
  simp only [isSpaceChar, decide_eq_false_iff_not]
  push_neg
  refine ⟨?_, ?_, ?_, ?_⟩ <;>
    (intro hc; subst hc; revert h1 h2; decide)

theorem dropWhile_of_all_false {p : Char → Bool} {s : List Char}
    (h : ∀ c ∈ s, p c = false) : s.dropWhile p = s := by
  cases s with
  | nil => rfl
  | cons a t =>
    rw [List.dropWhile_cons]
    simp [h a (List.mem_cons_self _ _)]

theorem trimChars_digits {s : List Char} (h : ∀ c ∈ s, c.isDigit) :
    trimChars s = s := by
  unfold trimChars
  rw [dropWhile_of_all_false (fun c hc => digit_not_space c (h c hc))]
  rw [dropWhile_of_all_false (fun c hc => digit_not_space c (h c (List.mem_reverse.mp hc)))]
  exact List.reverse_reverse s

theorem unitNames_have_nondigit :
    ∀ p ∈ unitNames, ∃ c ∈ p.2, ¬(c.isDigit) := by decide

theorem findUnit_digits {s : List Char} (h : ∀ c ∈ s, c.isDigit) :
    findUnit s = none := by
  rw [findUnit, List.findSome?_eq_none_iff]
  intro p hp
  rw [if_neg]
  intro heq
  obtain ⟨c, hc, hcd⟩ := unitNames_have_nondigit p hp
  rw [← heq] at hc
  unfold endsAt at hc
  split at hc
  · simp only [List.mem_map] at hc
    obtain ⟨c2, hc2, rfl⟩ := hc
    have hc2d : c2.isDigit := h c2 (List.mem_of_mem_drop hc2)
    rw [digit_toLower c2 hc2d] at hcd
    exact hcd hc2d
  · exact absurd hc (List.not_mem_nil c)

theorem parseNum_digits {s : List Char} (hne : s ≠ []) (h : ∀ c ∈ s, c.isDigit) :
    parseNum s = (digitsVal s : ℚ) := by
  obtain ⟨a, t, rfl⟩ := List.exists_cons_of_ne_nil hne
  have ha : a.isDigit := h a (List.mem_cons_self _ _)
  have hna : ¬((a :: t).head? = some '-') := by
    simp only [List.head?_cons, Option.some.injEq]
    intro hc; subst hc; revert ha; decide
  have hnp : ¬((a :: t).head? = some '-' ∨ (a :: t).head? = some '+') := by
    rintro (hc | hc)
    · exact hna hc
    · simp only [List.head?_cons, Option.some.injEq] at hc
      subst hc; revert ha; simp
  have htake : (a :: t).takeWhile Char.isDigit = a :: t :=
    List.takeWhile_eq_self_iff.mpr h
  have hdrop : (a :: t).dropWhile Char.isDigit = [] :=
    List.dropWhile_eq_nil_iff.mpr h
  have hd0 : digitsVal [] = 0 := rfl
  simp only [parseNum, if_neg hna, if_neg hnp, htake, hdrop]
  simp [hd0]

/-- Counterexample to C10 as stated: the digit-only string "5" parses to
magnitude 0 (the `sz < 2` early return), not to its numeric value 5; and
the bare string "rem" is matched as `Em` rather than the longest matching
suffix `rem`. -/
theorem setFromString_counterexample :
    (setFromString ['5'] = (0, UnitKind.px) ∧ (0 : ℚ) ≠ 5) ∧
    ((setFromString ['r', 'e', 'm']).2 = UnitKind.em ∧ UnitKind.em ≠ UnitKind.rem) := by
  refine ⟨⟨rfl, by norm_num⟩, ⟨?_, by decide⟩⟩
  simp +decide [setFromString, trimChars, isSpaceChar, findUnit, unitNames, endsAt,
    List.findSome?, List.dropWhile, List.takeWhile, List.drop]

/-- C10 (amended).  `SetFromString` first trims the input; trimmed strings
shorter than 2 characters yield magnitude 0 with unit Px.  Otherwise the
unit is the first one in declaration order whose name matches the
lowercased trailing window of the name's own length (windows of length 3
and 4 exist only when the string is strictly longer than 3 resp. 4
characters; on number-plus-suffix inputs this picks the longest matching
declared suffix, e.g. "5rem" → Rem not Em, "5vmin" → Vmin not In); when no
suffix matches the unit defaults to Px with the parsed magnitude — in
particular every digit-only string of length ≥ 2 parses to its decimal
value with unit Px. -/
theorem setFromString_amended :
    (∀ s : List Char, (trimChars s).length < 2 → setFromString s = (0, UnitKind.px)) ∧
    (∀ s : List Char, 2 ≤ s.length → (∀ c ∈ s, c.isDigit) →
      setFromString s = ((digitsVal s : ℚ), UnitKind.px)) ∧
    setFromString ['5', 'e', 'm'] = (5, UnitKind.em) ∧
    setFromString ['5', 'r', 'e', 'm'] = (5, UnitKind.rem) ∧
    setFromString ['5', 'v', 'm', 'i', 'n'] = (5, UnitKind.vmin) ∧
    setFromString ['5', 'q'] = (5, UnitKind.q) := by
  refine ⟨?_, ?_, ?_, ?_, ?_, ?_⟩
  · intro s hlt
    unfold setFromString
    rw [if_pos hlt]
  · intro s hlen h
    have hne : s ≠ [] := by
      intro hc; subst hc; simp at hlen
    unfold setFromString
    rw [trimChars_digits h, if_neg (by omega), findUnit_digits h,
      trimChars_digits h, parseNum_digits hne h]
  · simp +decide [setFromString, trimChars, isSpaceChar, findUnit, unitNames, endsAt,
      List.findSome?, parseNum, digitsVal, List.dropWhile, List.takeWhile, List.drop,
      List.take]
  · simp +decide [setFromString, trimChars, isSpaceChar, findUnit, unitNames, endsAt,
      List.findSome?, parseNum, digitsVal, List.dropWhile, List.takeWhile, List.drop,
      List.take]
  · simp +decide [setFromString, trimChars, isSpaceChar, findUnit, unitNames, endsAt,
      List.findSome?, parseNum, digitsVal, List.dropWhile, List.takeWhile, List.drop,
      List.take]
  · simp +decide [setFromString, trimChars, isSpaceChar, findUnit, unitNames, endsAt,
      List.findSome?, parseNum, digitsVal, List.dropWhile, List.takeWhile, List.drop,
      List.take]

/-- Witness for C10 (amended): the quantified parts applied at the
single-character string "7" and the digit-only string "55". -/
theorem setFromString_amended_witness :
    ((trimChars ['7']).length < 2 ∧ setFromString ['7'] = (0, UnitKind.px)) ∧
    (2 ≤ (['5', '5'] : List Char).length ∧ (∀ c ∈ (['5', '5'] : List Char), c.isDigit) ∧
      setFromString ['5', '5'] = ((digitsVal ['5', '5'] : ℚ), UnitKind.px)) :=
  ⟨⟨by decide, setFromString_amended.1 ['7'] (by decide)⟩,
   ⟨by decide, by decide, setFromString_amended.2.1 ['5', '5'] (by decide) (by decide)⟩⟩

end Goki

namespace Goki

/-- The style fields a layout node's measure/arrange passes read
(resolved to dots): `MinSizeDots`, `SizeDots`, `MaxSizeDots`, `PosDots`
(src lines 1105-1122), alignment, `BoxSpace`, overflow, scrollbar width. -/
structure NodeStyle where
  lay : Layouts
  minSize : Vec2D
  sizeS : Vec2D
  maxSize : Vec2D
  posS : Vec2D
  alignH : Align
  alignV : Align
  spc : ℚ
  overflow : Overflow
  scrollBarWidth : ℚ
deriving DecidableEq, Repr

/-- `LayoutData.SetFromStyle` (src lines 1177-1187): `Reset()` then the
Need/Pref/Max hints and the style position. -/
def LayoutData.setFromStyle (st : NodeStyle) : LayoutData :=
  { size := { need := st.minSize, pref := st.sizeS, max := st.maxSize },
    allocPos := st.posS, allocSize := Vec2D.zero, allocPosOrig := Vec2D.zero }

/-- The all-zero layout record. -/
def LayoutData.zeroLD : LayoutData :=
  { size := { need := Vec2D.zero, pref := Vec2D.zero, max := Vec2D.zero },
    allocPos := Vec2D.zero, allocSize := Vec2D.zero, allocPosOrig := Vec2D.zero }

/-- A tree of layout nodes: style (immutable input), layout data (state),
the persistent scrollbar values `sv` (the H/V scrollbars' `Value`s, which
survive layout passes), the `HasHScroll`/`HasVScroll` flags, and children. -/
inductive WTree where
  | node (st : NodeStyle) (ld : LayoutData) (sv : Vec2D) (hH hV : Bool) (kids : List WTree)

namespace WTree

def st : WTree → NodeStyle
  | node s _ _ _ _ _ => s

def ld : WTree → LayoutData
  | node _ l _ _ _ _ => l

def sv : WTree → Vec2D
  | node _ _ v _ _ _ => v

def kids : WTree → List WTree
  | node _ _ _ _ _ ks => ks

def withLd : WTree → LayoutData → WTree
  | node s _ v h1 h2 ks, l => node s l v h1 h2 ks

end WTree

/-- Custom member-wise induction principle for `WTree`. -/
theorem WTree.ind (P : WTree → Prop)
    (h : ∀ st ld sv hH hV kids, (∀ k ∈ kids, P k) → P (.node st ld sv hH hV kids)) :
    ∀ t, P t := by
  have H := @WTree.rec (fun t => P t) (fun l => ∀ k ∈ l, P k)
  apply H
  · intro s l v h1 h2 ks hk
    exact h s l v h1 h2 ks hk
  · intro k hk
    exact absurd hk (List.not_mem_nil k)
  · intro head tail hh ht k hk
    rcases List.mem_cons.mp hk with rfl | hm
    · exact hh
    · exact ht k hm

/-- `Layout.SumDim` (src lines 1256-1261). -/
def sumDim (lay : Layouts) (d : Dims2D) : Bool :=
  (d = Dims2D.X ∧ lay = Layouts.row) ∨ (d = Dims2D.Y ∧ lay = Layouts.col)

/-- The accumulation and self-update of `GatherSizes` (src lines 1276-1305),
given the children's (already `UpdateSizes`-normalized) layout records. -/
def gatherSizes (lay : Layouts) (spc : ℚ) (ld : LayoutData)
    (kidlds : List LayoutData) : LayoutData :=
  let sumNeed := kidlds.foldl (fun s l => s.add l.size.need) Vec2D.zero
  let sumPref := kidlds.foldl (fun s l => s.add l.size.pref) Vec2D.zero
  let maxNeed := kidlds.foldl (fun s l => s.vmax l.size.need) Vec2D.zero
  let maxPref := kidlds.foldl (fun s l => s.vmax l.size.pref) Vec2D.zero
  let pick := fun (sums maxs : Vec2D) (d : Dims2D) => if sumDim lay d then sums.dim d else maxs.dim d
  let need := ((ld.size.need.setMaxDim Dims2D.X (pick sumNeed maxNeed Dims2D.X)).setMaxDim
    Dims2D.Y (pick sumNeed maxNeed Dims2D.Y)).addVal (2 * spc)
  let pref := ((ld.size.pref.setMaxDim Dims2D.X (pick sumPref maxPref Dims2D.X)).setMaxDim
    Dims2D.Y (pick sumPref maxPref Dims2D.Y)).addVal (2 * spc)
  ({ ld with size := { ld.size with need := need, pref := pref } }).updateSizes

/-- The measure pass: a depth-first `Size2D` traversal.  Each node runs
`InitLayout2D` — modelled from the spec: `InitLayout2D` is not in src; §3
says layout data is "reset to zero position/size at the start of every
layout pass", which `SetFromStyle` (in src) implements — then `GatherSizes`,
which first applies `UpdateSizes` to every child's record. -/
def measure : WTree → WTree
  | WTree.node s _ v h1 h2 ks =>
    let ksM := ks.attach.map (fun x => measure x.1)
    let ld0 := LayoutData.setFromStyle s
    if ksM.length = 0 then WTree.node s ld0 v h1 h2 ksM
    else
      let ksU := ksM.map (fun t => t.withLd t.ld.updateSizes)
      WTree.node s (gatherSizes s.lay s.spc ld0 (ksU.map WTree.ld)) v h1 h2 ksU
decreasing_by
  have := List.sizeOf_lt_of_mem x.2
  simp only [WTree.node.sizeOf_spec]
  omega

/-- View a tree child as a `Child` record of the arrange pass. -/
def toChild (t : WTree) : Child :=
  { layData := t.ld, alignH := t.st.alignH, alignV := t.st.alignV }

/-- Assemble the ephemeral `Layout` record a node presents to the
single-level arrange algorithms. -/
def asLayout (s : NodeStyle) (l : LayoutData) (ks : List Child) : Layout :=
  { lay := s.lay, layData := l, kids := ks, alignH := s.alignH, alignV := s.alignV,
    spc := s.spc, overflow := s.overflow, scrollBarWidth := s.scrollBarWidth,
    childSize := Vec2D.zero, extraSize := Vec2D.zero,
    hasHScroll := false, hasVScroll := false, hScroll := none, vScroll := none }

/-- The single-level body of `Layout2D` (src lines 1901-1916): the per-mode
switch, then `FinalizeLayout` and `ManageOverflow`. -/
def layout2DStep (s : NodeStyle) (l : LayoutData) (ks : List Child) : Layout :=
  let ly := asLayout s l ks
  let ly1 :=
    match s.lay with
    | Layouts.row => (ly.layoutAll Dims2D.X).layoutSingle Dims2D.Y
    | Layouts.col => (ly.layoutAll Dims2D.Y).layoutSingle Dims2D.X
    | Layouts.stacked => (ly.layoutSingle Dims2D.X).layoutSingle Dims2D.Y
    | _ => ly
  ly1.finalizeLayout.manageOverflow

/-- The scroll-offset movement of a subtree (src lines 1938-1942):
`Move2DBase` — modelled from the spec: not in src; §4.7 "recomputes every
child's effective AllocPos by subtracting the scrollbar's current value
from the cached original AllocPos" — then the node's own `Move2DDelta`
(src lines 1926-1936, with the tree's `sv` holding the scrollbars' Values),
then `Move2DChildren`. -/
def move (delta : Vec2D) : WTree → WTree
  | WTree.node s l v h1 h2 ks =>
    let l1 := { l with allocPos := l.allocPosOrig.add delta }
    let d2 := Vec2D.mk (delta.x - (if h1 then v.x else 0))
      (delta.y - (if h2 then v.y else 0))
    WTree.node s l1 v h1 h2 (ks.attach.map (fun x => move d2 x.1))
decreasing_by
  have := List.sizeOf_lt_of_mem x.2
  simp only [WTree.node.sizeOf_spec]
  omega

/-- The arrange pass: `Layout2D` top-down.  `ldIn` is the node's layout
record as assigned by its parent (or, at the root, by `AllocFromParent`).
After arranging its children the node recurses, then applies
`Move2DDelta(Vec2DZero)` and, when nonzero, `Move2DChildren`
(src lines 1917-1922). -/
def arrange (ldIn : LayoutData) : WTree → WTree
  | WTree.node s _ v _ _ ks =>
    let ly := layout2DStep s ldIn (ks.map toChild)
    let ksA := (ks.zip ly.kids).attach.map (fun x => arrange x.1.2.layData x.1.1)
    let delta := Vec2D.mk (if ly.hasHScroll then 0 - v.x else 0)
      (if ly.hasVScroll then 0 - v.y else 0)
    let ksF := if delta = Vec2D.zero then ksA else ksA.map (move delta)
    WTree.node s ldIn v ly.hasHScroll ly.hasVScroll ksF
termination_by t => sizeOf t
decreasing_by
  have hlt := List.sizeOf_lt_of_mem (List.of_mem_zip x.2).1
  simp only [WTree.node.sizeOf_spec]
  exact Nat.lt_of_lt_of_le hlt (by omega)

/-- One full layout pass: measure, then arrange with the root's allocated
size taken from the external ancestor (`AllocFromParent`, src lines
1438-1461: the root's freshly reset `AllocSize` is zero, so it adopts the
ancestor's allocation). -/
def runPass (rootAlloc : Vec2D) (t : WTree) : WTree :=
  let m := measure t
  arrange { m.ld with allocSize := rootAlloc } m

/-- The pass-invariant part of a node: style, scroll values, structure. -/
def template : WTree → WTree
  | WTree.node s _ v _ _ ks =>
    WTree.node s LayoutData.zeroLD v false false (ks.attach.map (fun x => template x.1))
decreasing_by
  have := List.sizeOf_lt_of_mem x.2
  simp only [WTree.node.sizeOf_spec]
  omega

/-- Zero out only the HasHScroll/HasVScroll flags, recursively. -/
def stripFlags : WTree → WTree
  | WTree.node s l v _ _ ks =>
    WTree.node s l v false false (ks.attach.map (fun x => stripFlags x.1))
decreasing_by
  have := List.sizeOf_lt_of_mem x.2
  simp only [WTree.node.sizeOf_spec]
  omega

theorem template_node (s : NodeStyle) (l : LayoutData) (v : Vec2D) (h1 h2 : Bool)
    (ks : List WTree) :
    template (WTree.node s l v h1 h2 ks) =
      WTree.node s LayoutData.zeroLD v false false (ks.map template) := by
  rw [template, List.attach_map_coe]

theorem stripFlags_node (s : NodeStyle) (l : LayoutData) (v : Vec2D) (h1 h2 : Bool)
    (ks : List WTree) :
    stripFlags (WTree.node s l v h1 h2 ks) =
      WTree.node s l v false false (ks.map stripFlags) := by
  rw [stripFlags, List.attach_map_coe]

theorem move_node (δ : Vec2D) (s : NodeStyle) (l : LayoutData) (v : Vec2D) (h1 h2 : Bool)
    (ks : List WTree) :
    move δ (WTree.node s l v h1 h2 ks) =
      WTree.node s { l with allocPos := l.allocPosOrig.add δ } v h1 h2
        (ks.map (move (Vec2D.mk (δ.x - (if h1 then v.x else 0))
          (δ.y - (if h2 then v.y else 0))))) := by
  rw [move, List.attach_map_coe]

theorem measure_node (s : NodeStyle) (l : LayoutData) (v : Vec2D) (h1 h2 : Bool)
    (ks : List WTree) :
    measure (WTree.node s l v h1 h2 ks) =
      (if (ks.map measure).length = 0 then
        WTree.node s (LayoutData.setFromStyle s) v h1 h2 (ks.map measure)
      else
        WTree.node s (gatherSizes s.lay s.spc (LayoutData.setFromStyle s)
          (((ks.map measure).map (fun t => t.withLd t.ld.updateSizes)).map WTree.ld))
          v h1 h2 ((ks.map measure).map (fun t => t.withLd t.ld.updateSizes))) := by
  rw [measure, List.attach_map_coe]

theorem arrange_node (ldIn : LayoutData) (s : NodeStyle) (l : LayoutData) (v : Vec2D)
    (h1 h2 : Bool) (ks : List WTree) :
    arrange ldIn (WTree.node s l v h1 h2 ks) =
      (let ly := layout2DStep s ldIn (ks.map toChild)
       let ksA := (ks.zip ly.kids).map (fun p => arrange p.2.layData p.1)
       let delta := Vec2D.mk (if ly.hasHScroll then 0 - v.x else 0)
         (if ly.hasVScroll then 0 - v.y else 0)
       let ksF := if delta = Vec2D.zero then ksA else ksA.map (move delta)
       WTree.node s ldIn v ly.hasHScroll ly.hasVScroll ksF) := by
  rw [arrange,
    List.attach_map_coe (ks.zip (layout2DStep s ldIn (ks.map toChild)).kids)
      (fun p => arrange p.2.layData p.1)]

theorem ld_withLd (u : WTree) (l : LayoutData) : (u.withLd l).ld = l := by
  cases u; rfl

theorem ld_stripFlags (u : WTree) : (stripFlags u).ld = u.ld := by
  cases u with
  | node s l v h1 h2 ks => rw [stripFlags_node]; rfl

theorem stripFlags_withLd (u : WTree) (l : LayoutData) :
    stripFlags (u.withLd l) = (stripFlags u).withLd l := by
  cases u with
  | node s l0 v h1 h2 ks =>
    rw [WTree.withLd, stripFlags_node, stripFlags_node, WTree.withLd]

theorem template_withLd (u : WTree) (l : LayoutData) :
    template (u.withLd l) = template u := by
  cases u with
  | node s l0 v h1 h2 ks => rw [WTree.withLd, template_node, template_node]

theorem toChild_stripFlags (u : WTree) : toChild (stripFlags u) = toChild u := by
  cases u with
  | node s l v h1 h2 ks =>
    rw [stripFlags_node]; rfl

/-- Pointwise consequence of equal images under a common map. -/
theorem map_eq_map_forall₂ {α β : Type} (f : α → β) :
    ∀ {l₁ l₂ : List α}, l₁.map f = l₂.map f →
      List.Forall₂ (fun a b => f a = f b) l₁ l₂ := by
  intro l₁
  induction l₁ with
  | nil =>
    intro l₂ h
    cases l₂ with
    | nil => exact List.Forall₂.nil
    | cons b t => simp at h
  | cons a t ih =>
    intro l₂ h
    cases l₂ with
    | nil => simp at h
    | cons b t₂ =>
      simp only [List.map_cons, List.cons.injEq] at h
      exact List.Forall₂.cons h.1 (ih h.2)

/-- Map two pointwise-related lists to equal lists. -/
theorem map_congr_forall₂ {α β : Type} {R : α → α → Prop} {f g : α → β} :
    ∀ {l₁ l₂ : List α}, List.Forall₂ R l₁ l₂ → (∀ a b, R a b → f a = g b) →
      l₁.map f = l₂.map g := by
  intro l₁ l₂ h hfg
  induction h with
  | nil => rfl
  | cons hr _ ih => simp only [List.map_cons, ih, hfg _ _ hr]

theorem arrangeWalk_length (d : Dims2D) (up sM sN aS : Bool) (e tot es : ℚ) :
    ∀ (kids : List Child) (i : ℕ) (pos : ℚ),
      (Layout.arrangeWalk d up sM sN aS e tot es i pos kids).length = kids.length := by
  intro kids
  induction kids with
  | nil => intro i pos; rfl
  | cons k ks ih =>
    intro i pos
    simp only [Layout.arrangeWalk, List.length_cons, ih]

theorem layoutAll_kids_length (ly : Layout) (d : Dims2D) :
    (ly.layoutAll d).kids.length = ly.kids.length := by
  unfold Layout.layoutAll
  split
  · rfl
  · exact arrangeWalk_length _ _ _ _ _ _ _ _ _ _ _

theorem layoutSingle_kids_length (ly : Layout) (d : Dims2D) :
    (ly.layoutSingle d).kids.length = ly.kids.length := by
  unfold Layout.layoutSingle
  exact List.length_map _ _

theorem finalizeLayout_kids_length (ly : Layout) :
    ly.finalizeLayout.kids.length = ly.kids.length := by
  unfold Layout.finalizeLayout
  exact List.length_map _ _

theorem manageOverflow_kids (ly : Layout) : ly.manageOverflow.kids = ly.kids := by
  simp only [Layout.manageOverflow, Layout.setVScroll, Layout.setHScroll]
  split
  · rfl
  · split
    · rfl
    · split <;> split <;> rfl

theorem layout2DStep_kids_length (s : NodeStyle) (l : LayoutData) (ks : List Child) :
    (layout2DStep s l ks).kids.length = ks.length := by
  unfold layout2DStep
  rw [manageOverflow_kids, finalizeLayout_kids_length]
  cases s.lay <;>
    simp [layoutSingle_kids_length, layoutAll_kids_length, asLayout]

theorem template_move (δ : Vec2D) (t : WTree) : template (move δ t) = template t := by
  induction t using WTree.ind generalizing δ with
  | _ s l v h1 h2 ks ih =>
    rw [move_node, template_node, template_node]
    refine congrArg (WTree.node s LayoutData.zeroLD v false false) ?_
    rw [List.map_map]
    exact List.map_congr_left (fun k hk => ih k hk _)

theorem template_measure (t : WTree) : template (measure t) = template t := by
  induction t using WTree.ind with
  | _ s l v h1 h2 ks ih =>
    rw [measure_node]
    split
    · rw [template_node, template_node, List.map_map]
      exact congrArg (WTree.node s LayoutData.zeroLD v false false)
        (List.map_congr_left (fun k hk => ih k hk))
    · rw [template_node, template_node, List.map_map, List.map_map]
      refine congrArg (WTree.node s LayoutData.zeroLD v false false) ?_
      refine List.map_congr_left (fun k hk => ?_)
      show template ((measure k).withLd (measure k).ld.updateSizes) = template k
      rw [template_withLd]
      exact ih k hk

theorem map_template_moveIf (c : Prop) [Decidable c] (δ : Vec2D) (ksA : List WTree) :
    List.map template (if c then ksA else ksA.map (move δ)) = List.map template ksA := by
  split
  · rfl
  · rw [List.map_map]
    exact List.map_congr_left (fun k _ => template_move δ k)

theorem template_arrange (t : WTree) : ∀ l, template (arrange l t) = template t := by
  induction t using WTree.ind with
  | _ s l0 v h1 h2 ks ih =>
    intro l
    rw [arrange_node]
    simp only []
    rw [template_node, template_node]
    refine congrArg (WTree.node s LayoutData.zeroLD v false false) ?_
    have hlen : ks.length ≤ (layout2DStep s l (ks.map toChild)).kids.length := by
      rw [layout2DStep_kids_length, List.length_map]
    have hA : ((ks.zip (layout2DStep s l (ks.map toChild)).kids).map
        (fun p => arrange p.2.layData p.1)).map template = ks.map template := by
      rw [List.map_map]
      have h1 : ((ks.zip (layout2DStep s l (ks.map toChild)).kids).map
          (template ∘ fun p => arrange p.2.layData p.1)) =
          (ks.zip (layout2DStep s l (ks.map toChild)).kids).map (fun p => template p.1) :=
        List.map_congr_left (fun p hp => ih p.1 (List.of_mem_zip hp).1 p.2.layData)
      rw [h1]
      have h2 : ((ks.zip (layout2DStep s l (ks.map toChild)).kids).map
          (fun p => template p.1)) =
          ((ks.zip (layout2DStep s l (ks.map toChild)).kids).map Prod.fst).map template := by
        rw [List.map_map]; rfl
      rw [h2, List.map_fst_zip _ _ hlen]
    rw [map_template_moveIf]
    exact hA

theorem forall₂_of_forall₂_mem {α : Type} {R S : α → α → Prop} :
    ∀ {l₁ l₂ : List α}, List.Forall₂ R l₁ l₂ →
      (∀ a ∈ l₁, ∀ b, R a b → S a b) → List.Forall₂ S l₁ l₂ := by
  intro l₁ l₂ h
  induction h with
  | nil => intro _; exact List.Forall₂.nil
  | cons hr hrest ih =>
    intro hmem
    refine List.Forall₂.cons (hmem _ (List.mem_cons_self _ _) _ hr) ?_
    exact ih (fun a ha b hab => hmem a (List.mem_cons_of_mem _ ha) b hab)

theorem arrange_stripFlags (t : WTree) : ∀ l, arrange l (stripFlags t) = arrange l t := by
  induction t using WTree.ind with
  | _ s l0 v h1 h2 ks ih =>
    intro l
    rw [stripFlags_node, arrange_node, arrange_node]
    have hTC : (ks.map stripFlags).map toChild = ks.map toChild := by
      rw [List.map_map]
      exact List.map_congr_left (fun k _ => toChild_stripFlags k)
    rw [hTC]
    have hzip : ((ks.map stripFlags).zip (layout2DStep s l (ks.map toChild)).kids).map
        (fun p => arrange p.2.layData p.1) =
        (ks.zip (layout2DStep s l (ks.map toChild)).kids).map
          (fun p => arrange p.2.layData p.1) := by
      rw [List.zip_map_left, List.map_map]
      exact List.map_congr_left
        (fun p hp => ih p.1 (List.of_mem_zip hp).1 p.2.layData)
    simp only [hzip]

set_option maxHeartbeats 2000000 in
theorem strip_measure_congr : ∀ t₁ t₂ : WTree, template t₁ = template t₂ →
    stripFlags (measure t₁) = stripFlags (measure t₂) := by
  intro t₁
  induction t₁ using WTree.ind with
  | _ s l v h1 h2 ks ih =>
    intro t₂ ht
    cases t₂ with
    | node s₂ l₂ v₂ h21 h22 ks₂ =>
      rw [template_node, template_node] at ht
      injection ht with hs hld hv hb1 hb2 hkids
      subst hs
      subst hv
      have F := map_eq_map_forall₂ template hkids
      have hlen := F.length_eq
      have G : List.Forall₂ (fun a b => stripFlags (measure a) = stripFlags (measure b)) ks ks₂ :=
        forall₂_of_forall₂_mem F (fun a ha b hab => ih a ha b hab)
      have hmld : ∀ a b, stripFlags (measure a) = stripFlags (measure b) →
          (measure a).ld = (measure b).ld := by
        intro a b hab
        have := congrArg WTree.ld hab
        rwa [ld_stripFlags, ld_stripFlags] at this
      rw [measure_node, measure_node]
      by_cases hz : ks.length = 0
      · have hz₂ : ks₂.length = 0 := by omega
        obtain rfl := List.length_eq_zero.mp hz
        obtain rfl := List.length_eq_zero.mp hz₂
        rw [if_pos (by simp), if_pos (by simp), stripFlags_node, stripFlags_node]
      · have hz₂ : ¬ks₂.length = 0 := by omega
        rw [if_neg (by simpa using hz), if_neg (by simpa using hz₂)]
        have hlds : ((ks.map measure).map (fun t => t.withLd t.ld.updateSizes)).map WTree.ld =
            ((ks₂.map measure).map (fun t => t.withLd t.ld.updateSizes)).map WTree.ld := by
          rw [List.map_map, List.map_map, List.map_map, List.map_map]
          refine map_congr_forall₂ G (fun a b hab => ?_)
          show ((measure a).withLd (measure a).ld.updateSizes).ld =
            ((measure b).withLd (measure b).ld.updateSizes).ld
          rw [ld_withLd, ld_withLd, hmld a b hab]
        have hk2 : (((ks.map measure).map (fun t => t.withLd t.ld.updateSizes)).map
            stripFlags) =
            (((ks₂.map measure).map (fun t => t.withLd t.ld.updateSizes)).map stripFlags) := by
          rw [List.map_map, List.map_map, List.map_map, List.map_map]
          refine map_congr_forall₂ G (fun a b hab => ?_)
          show stripFlags ((measure a).withLd (measure a).ld.updateSizes) =
            stripFlags ((measure b).withLd (measure b).ld.updateSizes)
          rw [stripFlags_withLd, stripFlags_withLd, hab, hmld a b hab]
        rw [stripFlags_node, stripFlags_node, hlds, hk2]

/-- Pre-order listing of every node's (AllocPos, AllocSize). -/
def geom : WTree → List (Vec2D × Vec2D)
  | WTree.node _ l _ _ _ ks =>
    (l.allocPos, l.allocSize) :: (ks.attach.map (fun x => geom x.1)).flatten
decreasing_by
  have := List.sizeOf_lt_of_mem x.2
  simp only [WTree.node.sizeOf_spec]
  omega

theorem runPass_congr (a : Vec2D) (t₁ t₂ : WTree) (h : template t₁ = template t₂) :
    runPass a t₁ = runPass a t₂ := by
  unfold runPass
  have hs := strip_measure_congr t₁ t₂ h
  have hld : (measure t₁).ld = (measure t₂).ld := by
    have := congrArg WTree.ld hs
    rwa [ld_stripFlags, ld_stripFlags] at this
  calc arrange { (measure t₁).ld with allocSize := a } (measure t₁)
      = arrange { (measure t₁).ld with allocSize := a } (stripFlags (measure t₁)) :=
        (arrange_stripFlags (measure t₁) _).symm
    _ = arrange { (measure t₂).ld with allocSize := a } (stripFlags (measure t₂)) := by
        rw [hld, hs]
    _ = arrange { (measure t₂).ld with allocSize := a } (measure t₂) :=
        arrange_stripFlags (measure t₂) _

theorem template_runPass (a : Vec2D) (t : WTree) : template (runPass a t) = template t := by
  unfold runPass
  rw [template_arrange, template_measure]

/-- C5. For every layout tree and root allocation, running the measure pass
(`GatherSizes`, with the per-pass `SetFromStyle` reset) followed by the
arrange pass (`Layout2D`: per-mode child distribution, `FinalizeLayout`,
`ManageOverflow`, scroll-offset move) twice in succession, with no style,
tree or scrollbar-value change in between, produces exactly the same state
— in particular the same `AllocPos` and `AllocSize` at every node — as
running it once. -/
theorem layout_pass_idempotent (a : Vec2D) (t : WTree) :
    runPass a (runPass a t) = runPass a t ∧
    geom (runPass a (runPass a t)) = geom (runPass a t) := by
  have h := runPass_congr a (runPass a t) t (template_runPass a t)
  exact ⟨h, congrArg geom h⟩

end Goki
